import Mathlib

/-!
Verification development for the S3 storage backend of libsql-wal
(`src/libsql-wal/src/storage/backend/s3.rs`).

Strings are modelled as `List Char`; every string handled by the backend is
ASCII, so Rust's byte-wise operations (`split_at`, `str` comparison, S3 key
ordering) coincide with character-wise operations on the model.  Machine
integers (`u64`) are modelled as `Nat` together with explicit `≤ U64MAX`
bounds where they matter.
-/

namespace S3

/-- Numeric value of `u64::MAX`. -/
def U64MAX : Nat := 18446744073709551615

/-- Largest `u64` whose complement `u64::MAX - x` still has 20 decimal
digits, i.e. `u64::MAX - 10 ^ 19`. -/
def CMAX : Nat := U64MAX - 10 ^ 19

/-- The decimal digit character for `d ≤ 9`, as produced by Rust's decimal
integer formatting. -/
def digitChar : Nat → Char
  | 0 => '0'
  | 1 => '1'
  | 2 => '2'
  | 3 => '3'
  | 4 => '4'
  | 5 => '5'
  | 6 => '6'
  | 7 => '7'
  | 8 => '8'
  | 9 => '9'
  | _ => '*'

/-- Exactly `k` decimal digits of `n`, most significant first; for
`n < 10 ^ k` this is the zero-padded width-`k` decimal rendering of `n`. -/
def digitsFix : Nat → Nat → List Char
  | 0, _ => []
  | k + 1, n => digitChar (n / 10 ^ k) :: digitsFix k (n % 10 ^ k)

/-- Rust's `{:019}` formatting of `n`, valid for every `n < 10 ^ 20` (hence
for every `u64`): zero-pad to a minimum width of 19; a 20-digit value is
printed with all 20 digits. -/
def fmt019 (n : Nat) : List Char :=
  if n < 10 ^ 19 then digitsFix 19 n else digitsFix 20 n

/-- Byte-wise strict lexicographic order on ASCII strings: the order in
which S3 lists object keys and in which Rust compares `str` values (for
ASCII text the character code is the byte). -/
def lexLt : List Char → List Char → Bool
  | [], [] => false
  | [], _ :: _ => true
  | _ :: _, [] => false
  | a :: as, b :: bs =>
    if a.toNat < b.toNat then true
    else if b.toNat < a.toNat then false
    else lexLt as bs

/-- Value of an ASCII decimal digit character, `none` otherwise; the
per-character check performed by Rust's `u64::from_str`. -/
def charToDigit (c : Char) : Option Nat :=
  if 48 ≤ c.toNat ∧ c.toNat ≤ 57 then some (c.toNat - 48) else none

/-- Accumulating decimal evaluation of a digit string, `none` on the first
non-digit character. -/
def digitsValAux : Nat → List Char → Option Nat
  | acc, [] => some acc
  | acc, c :: rest =>
    match charToDigit c with
    | some d => digitsValAux (acc * 10 + d) rest
    | none => none

/-- Rust's `u64::from_str`: an optional leading plus sign, then one or more
ASCII digits, rejecting empty digit strings and values above `u64::MAX`
(a leading minus sign fails the digit check, as it does for `u64`). -/
def parseU64 (l : List Char) : Option Nat :=
  let core := match l with
    | [] => []
    | c :: rest => if c = '+' then rest else c :: rest
  match core, digitsValAux 0 core with
  | [], _ => none
  | _ :: _, none => none
  | _ :: _, some v => if v ≤ U64MAX then some v else none

/-- `SegmentKey` from the source: the half-open frame range
`[start_frame_no, end_frame_no)` of a stored segment.  Fields are `u64`
values (bounds are carried as hypotheses where needed). -/
structure SegmentKey where
  start_frame_no : Nat
  end_frame_no : Nat
deriving DecidableEq, Repr

/-- `SegmentKey::includes`: `(start_frame_no..end_frame_no).contains(&frame_no)`. -/
def SegmentKey.includes (k : SegmentKey) (frame_no : Nat) : Bool :=
  k.start_frame_no ≤ frame_no && frame_no < k.end_frame_no

/-- `impl fmt::Display for SegmentKey`: the format string is
`"{:019}-{:019}"` applied to `u64::MAX - start_frame_no` and
`u64::MAX - end_frame_no`. -/
def SegmentKey.display (k : SegmentKey) : List Char :=
  fmt019 (U64MAX - k.start_frame_no) ++ '-' :: fmt019 (U64MAX - k.end_frame_no)

/-- Outcome of `<SegmentKey as FromStr>::from_str`: it can succeed, return
`Err(())` (the spec's `InvalidKeyFormat`), or panic in `str::split_at`. -/
inductive ParseOutcome where
  | panics
  | fmtErr
  | ok (k : SegmentKey)
deriving DecidableEq, Repr

/-- `impl FromStr for SegmentKey`: `split_at(20)` (which panics when the
input is shorter than 20 bytes), parse the first 20 characters as a `u64`,
`split_at(1)` on the remainder (which panics when the remainder is empty;
the separator's content is never checked), parse the rest as a `u64`; each
parsed value `v` yields the field `u64::MAX - v`. -/
def SegmentKey.fromStr (s : List Char) : ParseOutcome :=
  if s.length < 20 then .panics
  else
    match parseU64 (s.take 20) with
    | none => .fmtErr
    | some v1 =>
      if (s.drop 20).length < 1 then .panics
      else
        match parseU64 ((s.drop 20).drop 1) with
        | none => .fmtErr
        | some v2 => .ok ⟨U64MAX - v1, U64MAX - v2⟩

/-- `impl fmt::Display for FolderKey` (and the identical `s3_folder_key`):
`"ns-{cluster_id}:{namespace}-v2"`. -/
def folderKeyStr (cluster_id ns : List Char) : List Char :=
  "ns-".data ++ cluster_id ++ ':' :: ns ++ "-v2".data

/-- `s3_segment_data_key`: `"{folder_key}/segments/{segment_key}"`. -/
def s3_segment_data_key (folder_key : List Char) (segment_key : SegmentKey) : List Char :=
  folder_key ++ "/segments/".data ++ segment_key.display

/-- `s3_segment_index_key`: `"{folder_key}/indexes/{segment_key}"`. -/
def s3_segment_index_key (folder_key : List Char) (segment_key : SegmentKey) : List Char :=
  folder_key ++ "/indexes/".data ++ segment_key.display

/-- `s3_segment_index_lookup_key`: `"{folder_key}/indexes/{:019}"` applied
to `u64::MAX - frame_no`. -/
def s3_segment_index_lookup_key (folder_key : List Char) (frame_no : Nat) : List Char :=
  folder_key ++ "/indexes/".data ++ fmt019 (U64MAX - frame_no)

/-- Rust `Path::file_name` on an S3 key: the component after the last
slash, `none` when that component is empty (our keys never end in a
slash, so the trailing-slash normalisation of `Path` never fires). -/
def fileNameOf (l : List Char) : Option (List Char) :=
  if (l.reverse.takeWhile (fun c => c ≠ '/')).reverse = [] then none
  else some (l.reverse.takeWhile (fun c => c ≠ '/')).reverse

/-- Extension stripping of Rust `Path::file_stem`: drop everything from the
final dot on, except that a name whose only dot is its first character is
kept whole. -/
def stripExt (nm : List Char) : List Char :=
  match nm.reverse.dropWhile (fun c => c ≠ '.') with
  | [] => nm
  | _ :: front => if front = [] then nm else front.reverse

/-- Rust `Path::file_stem` on an S3 key. -/
def fileStem (l : List Char) : Option (List Char) :=
  (fileNameOf l).map stripExt

/-- `S3Backend::find_segment`, with the S3 listing modelled by `bucket`,
the bucket's object keys in ascending `lexLt` order.  The backend issues a
single `list_objects_v2` with `start_after` set to the lookup key and no
key filter or result limit, then takes `contents().first()` — the first
bucket key strictly after the lookup key; the file stem of that key is
parsed into a `SegmentKey`.  An empty listing returns `Ok(None)`, modelled
as `some none`; the outer `none` models one of the `.unwrap()` calls
panicking (`file_stem`, `to_str` or `parse`). -/
def find_segment (bucket : List (List Char)) (folder_key : List Char)
    (frame_no : Nat) : Option (Option SegmentKey) :=
  let lookup_key := s3_segment_index_lookup_key folder_key frame_no
  match bucket.find? (fun k => lexLt lookup_key k) with
  | none => some none
  | some key =>
    match fileStem key with
    | none => none
    | some stem =>
      match SegmentKey.fromStr stem with
      | .ok segment_key => some (some segment_key)
      | _ => none

/-- Transport result of one blob-store call: the SDK either delivers a
value or fails. -/
inductive CallResult (α : Type) where
  | ok (a : α)
  | fail
deriving DecidableEq

/-- Typed errors of `crate::storage::Error` reachable from this file. -/
inductive StorageError where
  | FrameNotFound (frame_no : Nat)
  | unhandled (ctx : List Char)
deriving DecidableEq

/-- Outcome of a backend operation: normal return, a typed
`crate::storage::Error`, or a panic. -/
inductive OpOutcome (α : Type) where
  | ok (a : α)
  | err (e : StorageError)
  | panics
deriving DecidableEq

/-- `S3Backend::meta`: `find_segment` at `frame_no = u64::MAX`;
`max_frame_no` is the found key's `end_frame_no`, or 0 when no segment is
found.  `listRes` is the transport result of the listing call inside
`find_segment`, whose `send()` is `.unwrap()`ed: a transport failure
panics. -/
def metaOp (listRes : CallResult (List (List Char))) (folder_key : List Char) :
    OpOutcome Nat :=
  match listRes with
  | .fail => .panics
  | .ok bucket =>
    match find_segment bucket folder_key U64MAX with
    | none => .panics
    | some none => .ok 0
    | some (some segment_key) => .ok segment_key.end_frame_no

/-- The fields of `S3Config` that this file's code reads. -/
structure S3Config where
  bucket : List Char
  cluster_id : List Char

/-- The fields of `SegmentMeta` that `store` reads (`segment_id` and
`created_at` are never used by this file). -/
structure SegmentMeta where
  ns : List Char
  start_frame_no : Nat
  end_frame_no : Nat

/-- A `put_object` request: target bucket and object key. -/
structure PutRequest where
  bucket : List Char
  key : List Char
deriving DecidableEq

/-- `S3Backend::store`: derive the folder key from the *passed* config's
`cluster_id` and the segment meta's namespace, derive the segment key from
the meta's frame range, then `put_object` the segment data and afterwards
the segment index — both to `self.default_config.bucket`, not to the
passed config's bucket.  Each `send()` is `.unwrap()`ed, so a transport
failure panics.  `send_put` gives the transport result of each request;
the issued requests are returned in order alongside the outcome. -/
def store (default_config : S3Config) (config : S3Config) (meta : SegmentMeta)
    (send_put : PutRequest → CallResult Unit) :
    OpOutcome Unit × List PutRequest :=
  let folder_key := folderKeyStr config.cluster_id meta.ns
  let segment_key : SegmentKey := ⟨meta.start_frame_no, meta.end_frame_no⟩
  let s3_data_key := s3_segment_data_key folder_key segment_key
  let req1 : PutRequest := ⟨default_config.bucket, s3_data_key⟩
  match send_put req1 with
  | .fail => (.panics, [req1])
  | .ok _ =>
    let s3_index_key := s3_segment_index_key folder_key segment_key
    let req2 : PutRequest := ⟨default_config.bucket, s3_index_key⟩
    match send_put req2 with
    | .fail => (.panics, [req1, req2])
    | .ok _ => (.ok (), [req1, req2])

/-- The first `put_object` request issued by `store`: the backend's default
bucket and the data key derived from the passed config's cluster id. -/
def storeDataRequest (default_config : S3Config) (config : S3Config)
    (meta : SegmentMeta) : PutRequest :=
  ⟨default_config.bucket,
    s3_segment_data_key (folderKeyStr config.cluster_id meta.ns)
      ⟨meta.start_frame_no, meta.end_frame_no⟩⟩

/-- The second `put_object` request issued by `store`: the backend's default
bucket and the index key derived from the passed config's cluster id. -/
def storeIndexRequest (default_config : S3Config) (config : S3Config)
    (meta : SegmentMeta) : PutRequest :=
  ⟨default_config.bucket,
    s3_segment_index_key (folderKeyStr config.cluster_id meta.ns)
      ⟨meta.start_frame_no, meta.end_frame_no⟩⟩

/-- A `get_object` request: target bucket and object key. -/
structure GetRequest where
  bucket : List Char
  key : List Char
deriving DecidableEq

/-- `S3Backend::s3_get` addresses the *passed* config's bucket. -/
def s3_get (config : S3Config) (key : List Char) : GetRequest :=
  ⟨config.bucket, key⟩

/-- The `list_objects_v2` request built by `find_segment`: the passed
config's bucket and `start_after` at the lookup key; no `prefix` and no
`max_keys` are set. -/
structure ListRequest where
  bucket : List Char
  start_after : List Char
deriving DecidableEq

/-- The listing request of `S3Backend::find_segment`. -/
def find_segment_request (config : S3Config) (folder_key : List Char)
    (frame_no : Nat) : ListRequest :=
  ⟨config.bucket, s3_segment_index_lookup_key folder_key frame_no⟩

/-- `S3Backend::fetch_segment`: locate the segment via `find_segment`
(whose listing transport result is `listRes`; its `send()` is
`.unwrap()`ed).  No key found is the typed `FrameNotFound` error.  When the
found key's range includes `frame_no`, the data download and the index
download run under `try_join!`; both `get_object` sends (and the index
body collection) are `.unwrap()`ed, so either transport failure
(`getData`, `getIndex`) panics.  When the found key's range excludes
`frame_no`, the code hits `todo!("not found")`, which panics. -/
def fetch_segment (listRes : CallResult (List (List Char)))
    (folder_key : List Char) (frame_no : Nat)
    (getData getIndex : CallResult Unit) : OpOutcome Unit :=
  match listRes with
  | .fail => .panics
  | .ok bucket =>
    match find_segment bucket folder_key frame_no with
    | none => .panics
    | some none => .err (.FrameNotFound frame_no)
    | some (some segment_key) =>
      if segment_key.includes frame_no then
        match getData, getIndex with
        | .ok _, .ok _ => .ok ()
        | _, _ => .panics
      else .panics

/-- Result of the `create_bucket` call in `from_sdk_config_with_io`. -/
inductive CreateBucketResult where
  | success
  | bucketAlreadyExists
  | bucketAlreadyOwnedByYou
  | otherServiceError
  | nonServiceError
deriving DecidableEq

/-- Bucket creation in `S3Backend::from_sdk_config_with_io`:
`BucketAlreadyExists` and `BucketAlreadyOwnedByYou` are recovered silently
(a debug trace only); any other failure returns `Error::unhandled(e,
"failed to create bucket")`; success proceeds. -/
def init_bucket (r : CreateBucketResult) : OpOutcome Unit :=
  match r with
  | .success => .ok ()
  | .bucketAlreadyExists => .ok ()
  | .bucketAlreadyOwnedByYou => .ok ()
  | .otherServiceError => .err (.unhandled ("failed to create bucket").data)
  | .nonServiceError => .err (.unhandled ("failed to create bucket").data)

/-- `StreamState` of `FileStreamBody`. -/
inductive StreamState where
  | init
  | waitingChunk
  | done
deriving DecidableEq

/-- `FileStreamBody` over a pure random-access source: `current_offset`,
`chunk_size` and the machine state; the source itself is passed to
`poll_frame` (the shared `Arc<F>` handle), and the pending read future is
determined by the offset captured when it was set, so it needs no separate
field in the pure model. -/
structure FileStreamBody where
  current_offset : Nat
  chunk_size : Nat
  state : StreamState
deriving DecidableEq

/-- `FileStreamBody::new_inner`: offset 0, chunk size 4096, `Init` state. -/
def FileStreamBody.new_inner : FileStreamBody :=
  ⟨0, 4096, .init⟩

/-- One read of `FileExt::read_at_async` with a buffer of capacity `len` at
`offset`: up to `len` bytes of the source starting at `offset`. -/
def read_at (source : List Nat) (offset len : Nat) : List Nat :=
  (source.drop offset).take len

/-- One `poll_frame` of `FileStreamBody`.  In `Init` the loop sets the read
future at `current_offset` for `chunk_size` bytes and falls through to
`WaitingChunk`; the pure read completes immediately, so the same call
observes the result: an empty buffer moves to `Done` and ends the stream
(`none`), otherwise the offset advances by the buffer's length, the state
returns to `Init` and the buffer is emitted as one data frame.  In `Done`
the stream stays ended.  (The source never errors in this pure model; the
error arm of `poll_frame` is exercised nowhere by the claims proved
here.) -/
def poll_frame (source : List Nat) (b : FileStreamBody) :
    FileStreamBody × Option (List Nat) :=
  match b.state with
  | .done => (b, none)
  | _ =>
    let buf := read_at source b.current_offset b.chunk_size
    if buf.isEmpty then
      (⟨b.current_offset, b.chunk_size, .done⟩, none)
    else
      (⟨b.current_offset + buf.length, b.chunk_size, .init⟩, some buf)

/-- Drive a `FileStreamBody` with up to `fuel` polls, collecting the data
frames; the run ends early at end of stream. -/
def drive (source : List Nat) : Nat → FileStreamBody → List (List Nat)
  | 0, _ => []
  | fuel + 1, b =>
    match poll_frame source b with
    | (b', some buf) => buf :: drive source fuel b'
    | (_, none) => []

/-- All data frames produced by driving a fresh `FileStreamBody`
(`new_inner`) to completion; `source.length + 1` polls always reach end of
stream. -/
def bodyFrames (source : List Nat) : List (List Nat) :=
  drive source (source.length + 1) FileStreamBody.new_inner

/-- The 4096-byte chunking of a byte list; the canonical value that the
drive of a `FileStreamBody` computes. -/
def chunksFrom (rest : List Nat) : List (List Nat) :=
  if h : rest = [] then []
  else rest.take 4096 :: chunksFrom (rest.drop 4096)
termination_by rest.length
decreasing_by
  simp only [List.length_drop]
  have hl : 0 < rest.length := List.length_pos.2 h
  omega

/-- Whether a bucket listing is in strictly ascending key order, as S3
enumerates objects. -/
def sortedAscB : List (List Char) → Bool
  | [] => true
  | [_] => true
  | a :: b :: rest => lexLt a b && sortedAscB (b :: rest)

/-- Folder key of the namespace used in the concrete scenarios (the values
of the `s3_basic` test: cluster id `123456789`, namespace `foobarbaz`). -/
def folderC : List Char :=
  folderKeyStr ("123456789").data ("foobarbaz").data

/-- The bucket holding exactly the data and index objects of the two
segments `[0,64)` and `[64,128)` of `folderC`, in ascending key order. -/
def bucketC4 : List (List Char) :=
  [s3_segment_index_key folderC ⟨64, 128⟩,
   s3_segment_index_key folderC ⟨0, 64⟩,
   s3_segment_data_key folderC ⟨64, 128⟩,
   s3_segment_data_key folderC ⟨0, 64⟩]

/-- The bucket holding exactly the data and index objects of the two
segments `[0,64)` and `[9000000000000000000, 9000000000000000064)` of
`folderC`, in ascending key order: the complement of the large start has
only 19 digits, so its keys sort after both keys of segment `[0,64)`. -/
def bucketC5 : List (List Char) :=
  [s3_segment_index_key folderC ⟨0, 64⟩,
   s3_segment_index_key folderC ⟨9000000000000000000, 9000000000000000064⟩,
   s3_segment_data_key folderC ⟨0, 64⟩,
   s3_segment_data_key folderC ⟨9000000000000000000, 9000000000000000064⟩]

/-- A bucket holding only the *data* object of segment `[0,64)` of
`folderC` — no index object at all. -/
def bucketC10 : List (List Char) :=
  [s3_segment_data_key folderC ⟨0, 64⟩]

/-! ### Digit characters -/

theorem digitChar_toNat {d : Nat} (hd : d < 10) : (digitChar d).toNat = 48 + d := by
  interval_cases d <;> rfl

theorem charToDigit_digitChar {d : Nat} (hd : d < 10) :
    charToDigit (digitChar d) = some d := by
  interval_cases d <;> rfl

theorem ne_of_toNat_ne {c₁ c₂ : Char} (h : c₁.toNat ≠ c₂.toNat) : c₁ ≠ c₂ :=
  fun he => h (he ▸ rfl)

/-! ### digitsFix -/

theorem digitsFix_length (k : Nat) : ∀ n, (digitsFix k n).length = k := by
  induction k with
  | zero => intro n; rfl
  | succ k ih => intro n; simp [digitsFix, ih]

theorem digitsFix_ne_nil {k n : Nat} (hk : 0 < k) : digitsFix k n ≠ [] := by
  intro h
  have := digitsFix_length k n
  rw [h] at this
  simp at this
  omega

theorem div_pow_lt_ten {k n : Nat} (hn : n < 10 ^ (k + 1)) : n / 10 ^ k < 10 := by
  have hp : 0 < 10 ^ k := Nat.pos_pow_of_pos k (by omega)
  rw [Nat.div_lt_iff_lt_mul hp]
  calc n < 10 ^ (k + 1) := hn
    _ = 10 * 10 ^ k := by rw [pow_succ]; ring

theorem digitsFix_mem {k : Nat} : ∀ {n : Nat}, n < 10 ^ k →
    ∀ c ∈ digitsFix k n, ∃ d, d < 10 ∧ c = digitChar d := by
  induction k with
  | zero => intro n _ c hc; simp [digitsFix] at hc
  | succ k ih =>
    intro n hn c hc
    simp only [digitsFix, List.mem_cons] at hc
    rcases hc with hc | hc
    · exact ⟨n / 10 ^ k, div_pow_lt_ten hn, hc⟩
    · exact ih (Nat.mod_lt _ (Nat.pos_pow_of_pos k (by omega))) c hc

theorem digitsValAux_digitsFix (k : Nat) : ∀ a n, n < 10 ^ k →
    digitsValAux a (digitsFix k n) = some (a * 10 ^ k + n) := by
  induction k with
  | zero =>
    intro a n hn
    have : n = 0 := by simpa using hn
    simp [this, digitsValAux, digitsFix]
  | succ k ih =>
    intro a n hn
    simp only [digitsFix, digitsValAux, charToDigit_digitChar (div_pow_lt_ten hn)]
    rw [ih _ _ (Nat.mod_lt _ (Nat.pos_pow_of_pos k (by omega)))]
    congr 1
    have hdm := Nat.div_add_mod n (10 ^ k)
    calc (a * 10 + n / 10 ^ k) * 10 ^ k + n % 10 ^ k
        = a * (10 ^ k * 10) + (10 ^ k * (n / 10 ^ k) + n % 10 ^ k) := by ring
      _ = a * 10 ^ (k + 1) + n := by rw [hdm, pow_succ]

theorem parseU64_digitsFix {k n : Nat} (hk : 0 < k) (hn : n < 10 ^ k)
    (hmax : n ≤ U64MAX) : parseU64 (digitsFix k n) = some n := by
  obtain ⟨k', rfl⟩ : ∃ k', k = k' + 1 := ⟨k - 1, by omega⟩
  have hd : n / 10 ^ k' < 10 := div_pow_lt_ten hn
  have hne : digitChar (n / 10 ^ k') ≠ '+' := by
    have h1 : (digitChar (n / 10 ^ k')).toNat = 48 + n / 10 ^ k' := digitChar_toNat hd
    have h2 : ('+').toNat = 43 := rfl
    intro he
    rw [he, h2] at h1
    generalize n / 10 ^ k' = x at h1
    omega
  have hval := digitsValAux_digitsFix (k' + 1) 0 n hn
  simp only [digitsFix] at hval ⊢
  simp only [parseU64, if_neg hne]
  rw [hval]
  simp [hmax]

theorem fmt019_eq_digitsFix_20 {n : Nat} (h : 10 ^ 19 ≤ n) :
    fmt019 n = digitsFix 20 n := by
  rw [fmt019, if_neg (Nat.not_lt.2 h)]

theorem fmt019_parse {n : Nat} (hn : n ≤ U64MAX) : parseU64 (fmt019 n) = some n := by
  by_cases h : n < 10 ^ 19
  · rw [fmt019, if_pos h]
    exact parseU64_digitsFix (by omega) h hn
  · rw [fmt019_eq_digitsFix_20 (Nat.not_lt.1 h)]
    have : n < 10 ^ 20 := by
      have : U64MAX < 10 ^ 20 := by norm_num [U64MAX]
      omega
    exact parseU64_digitsFix (by omega) this hn

theorem fmt019_mem {n : Nat} (hn : n < 10 ^ 20) :
    ∀ c ∈ fmt019 n, ∃ d, d < 10 ∧ c = digitChar d := by
  by_cases h : n < 10 ^ 19
  · rw [fmt019, if_pos h]; exact digitsFix_mem h
  · rw [fmt019_eq_digitsFix_20 (Nat.not_lt.1 h)]; exact digitsFix_mem hn

/-! ### lexLt -/

theorem lexLt_cons_iff {x y : Char} {xs ys : List Char} :
    lexLt (x :: xs) (y :: ys) = true ↔
      x.toNat < y.toNat ∨ (x.toNat = y.toNat ∧ lexLt xs ys = true) := by
  by_cases h1 : x.toNat < y.toNat
  · simp [lexLt, h1]
  · by_cases h2 : y.toNat < x.toNat
    · simp [lexLt, h1, h2]; omega
    · simp [lexLt, h1, h2]; omega

theorem lexLt_irrefl (l : List Char) : lexLt l l = false := by
  induction l with
  | nil => rfl
  | cons c t ih => simp [lexLt, ih]

theorem lexLt_trans : ∀ {a b c : List Char}, lexLt a b = true → lexLt b c = true →
    lexLt a c = true := by
  intro a
  induction a with
  | nil =>
    intro b c h₁ h₂
    cases b with
    | nil => simp [lexLt] at h₁
    | cons bh bt =>
      cases c with
      | nil => simp [lexLt] at h₂
      | cons ch ct => rfl
  | cons ah at' ih =>
    intro b c h₁ h₂
    cases b with
    | nil => simp [lexLt] at h₁
    | cons bh bt =>
      cases c with
      | nil => simp [lexLt] at h₂
      | cons ch ct =>
        rw [lexLt_cons_iff] at h₁ h₂ ⊢
        rcases h₁ with h₁ | ⟨h₁e, h₁r⟩ <;> rcases h₂ with h₂ | ⟨h₂e, h₂r⟩
        · exact Or.inl (by omega)
        · exact Or.inl (by omega)
        · exact Or.inl (by omega)
        · exact Or.inr ⟨by omega, ih h₁r h₂r⟩

theorem lexLt_asymm {a b : List Char} (h₁ : lexLt a b = true) :
    lexLt b a = false := by
  by_contra h
  have h₂ : lexLt b a = true := by
    cases hab : lexLt b a
    · exact absurd hab h
    · rfl
  have := lexLt_trans h₁ h₂
  rw [lexLt_irrefl] at this
  exact Bool.false_ne_true this

theorem lexLt_append_same : ∀ (p a b : List Char),
    lexLt (p ++ a) (p ++ b) = lexLt a b := by
  intro p
  induction p with
  | nil => intro a b; rfl
  | cons c t ih => intro a b; simp [lexLt, ih]

theorem lexLt_append_of_length_eq : ∀ {a b : List Char}, a.length = b.length →
    lexLt a b = true → ∀ (u v : List Char), lexLt (a ++ u) (b ++ v) = true := by
  intro a
  induction a with
  | nil =>
    intro b hlen hab u v
    have : b = [] := by cases b <;> simp_all
    subst this
    simp [lexLt] at hab
  | cons ah at' ih =>
    intro b hlen hab u v
    cases b with
    | nil => simp at hlen
    | cons bh bt =>
      rw [lexLt_cons_iff] at hab
      simp only [List.cons_append]
      rw [lexLt_cons_iff]
      rcases hab with h | ⟨he, hr⟩
      · exact Or.inl h
      · exact Or.inr ⟨he, ih (by simpa using hlen) hr u v⟩

theorem lexLt_cons_of_lt {x y : Char} (xs ys : List Char)
    (h : x.toNat < y.toNat) : lexLt (x :: xs) (y :: ys) = true := by
  simp [lexLt, h]

theorem digitsFix_lex {k : Nat} : ∀ {a b : Nat}, a < b → b < 10 ^ k →
    lexLt (digitsFix k a) (digitsFix k b) = true := by
  induction k with
  | zero =>
    intro a b hab hb
    simp at hb
    omega
  | succ k ih =>
    intro a b hab hb
    have hbd : b / 10 ^ k < 10 := div_pow_lt_ten hb
    have had : a / 10 ^ k < 10 := div_pow_lt_ten (by omega)
    have hdle : a / 10 ^ k ≤ b / 10 ^ k := Nat.div_le_div_right (by omega)
    simp only [digitsFix]
    rcases Nat.lt_or_ge (a / 10 ^ k) (b / 10 ^ k) with hlt | hge
    · exact lexLt_cons_of_lt _ _ (by rw [digitChar_toNat had, digitChar_toNat hbd]; omega)
    · have heq : a / 10 ^ k = b / 10 ^ k := by omega
      rw [lexLt_cons_iff]
      refine Or.inr ⟨by rw [heq], ih ?_ (Nat.mod_lt _ (Nat.pos_pow_of_pos k (by omega)))⟩
      have ha' := Nat.div_add_mod a (10 ^ k)
      have hb' := Nat.div_add_mod b (10 ^ k)
      rw [← heq] at hb'
      omega

/-! ### SegmentKey encoding -/

theorem pow19_eq : (10 : Nat) ^ 19 = 10000000000000000000 := by norm_num

theorem pow20_eq : (10 : Nat) ^ 20 = 100000000000000000000 := by norm_num

theorem U64MAX_lt_pow20 : U64MAX < 10 ^ 20 := by rw [pow20_eq]; norm_num [U64MAX]

theorem CMAX_compl_ge {s : Nat} (hs : s ≤ CMAX) : 10 ^ 19 ≤ U64MAX - s := by
  rw [CMAX, pow19_eq] at hs
  rw [pow19_eq]
  norm_num [U64MAX] at hs ⊢
  omega

theorem le_U64MAX_of_le_CMAX {s : Nat} (hs : s ≤ CMAX) : s ≤ U64MAX := by
  rw [CMAX, pow19_eq] at hs
  norm_num [U64MAX] at hs ⊢
  omega

/-- For a start frame number whose complement still has 20 digits, the
encoded key starts with the full 20-digit complement field. -/
theorem display_decomp {s e : Nat} (hs : s ≤ CMAX) :
    SegmentKey.display ⟨s, e⟩ =
      digitsFix 20 (U64MAX - s) ++ '-' :: fmt019 (U64MAX - e) := by
  rw [SegmentKey.display]
  simp only
  rw [fmt019_eq_digitsFix_20 (CMAX_compl_ge hs)]

/-- Round trip of the key codec, valid exactly while the start complement
keeps 20 digits. -/
theorem fromStr_display {s e : Nat} (hs : s ≤ CMAX) (he : e ≤ U64MAX) :
    SegmentKey.fromStr (SegmentKey.display ⟨s, e⟩) = .ok ⟨s, e⟩ := by
  have hsM : s ≤ U64MAX := le_U64MAX_of_le_CMAX hs
  have hc1lt : U64MAX - s < 10 ^ 20 := by
    have := U64MAX_lt_pow20
    omega
  have hc1le : U64MAX - s ≤ U64MAX := Nat.sub_le _ _
  have hc2le : U64MAX - e ≤ U64MAX := Nat.sub_le _ _
  have hlen1 : (digitsFix 20 (U64MAX - s)).length = 20 := digitsFix_length 20 _
  rw [display_decomp hs, SegmentKey.fromStr]
  rw [if_neg (by simp [hlen1])]
  rw [List.take_left' hlen1, List.drop_left' hlen1]
  rw [parseU64_digitsFix (by omega) hc1lt hc1le]
  simp only [List.length_cons, List.drop_succ_cons, List.drop_zero]
  rw [if_neg (by omega)]
  rw [fmt019_parse hc2le]
  simp [Nat.sub_sub_self hsM, Nat.sub_sub_self he]

/-- Order reversal of the key codec inside the 20-digit-complement range:
the key of the larger start frame number sorts strictly first. -/
theorem display_lex {s1 s2 e1 e2 : Nat} (h12 : s1 < s2) (hs2 : s2 ≤ CMAX) :
    lexLt (SegmentKey.display ⟨s2, e2⟩) (SegmentKey.display ⟨s1, e1⟩) = true := by
  have hs1 : s1 ≤ CMAX := by omega
  have hlt : U64MAX - s2 < U64MAX - s1 := by
    have := le_U64MAX_of_le_CMAX hs2
    omega
  have hc1lt : U64MAX - s1 < 10 ^ 20 := by
    have := U64MAX_lt_pow20
    omega
  rw [display_decomp hs1, display_decomp hs2]
  exact lexLt_append_of_length_eq
    (by rw [digitsFix_length, digitsFix_length])
    (digitsFix_lex hlt hc1lt) _ _

/-- Every character of an encoded segment key is a decimal digit or the
separator. -/
theorem display_mem {k : SegmentKey} (hsM : k.start_frame_no ≤ U64MAX)
    (heM : k.end_frame_no ≤ U64MAX) :
    ∀ c ∈ SegmentKey.display k, c = '-' ∨ ∃ d, d < 10 ∧ c = digitChar d := by
  intro c hc
  have hM := U64MAX_lt_pow20
  rw [SegmentKey.display] at hc
  rcases List.mem_append.1 hc with h | h
  · exact Or.inr (fmt019_mem (by omega) c h)
  · rcases List.mem_cons.1 h with rfl | h
    · exact Or.inl rfl
    · exact Or.inr (fmt019_mem (by omega) c h)

theorem display_ne_nil (k : SegmentKey) : SegmentKey.display k ≠ [] := by
  rw [SegmentKey.display, fmt019]
  split
  · exact fun h => digitsFix_ne_nil (k := 19) (by omega) (List.append_eq_nil.1 h).1
  · exact fun h => digitsFix_ne_nil (k := 20) (by omega) (List.append_eq_nil.1 h).1

theorem display_no_slash {k : SegmentKey} (hsM : k.start_frame_no ≤ U64MAX)
    (heM : k.end_frame_no ≤ U64MAX) : ∀ c ∈ SegmentKey.display k, c ≠ '/' := by
  intro c hc he
  rcases display_mem hsM heM c hc with h | ⟨d, hd, h⟩
  · rw [he] at h; exact absurd h (by decide)
  · rw [he] at h
    have := digitChar_toNat hd
    rw [← h] at this
    have h47 : ('/').toNat = 47 := rfl
    rw [h47] at this
    omega

theorem display_no_dot {k : SegmentKey} (hsM : k.start_frame_no ≤ U64MAX)
    (heM : k.end_frame_no ≤ U64MAX) : ∀ c ∈ SegmentKey.display k, c ≠ '.' := by
  intro c hc he
  rcases display_mem hsM heM c hc with h | ⟨d, hd, h⟩
  · rw [he] at h; exact absurd h (by decide)
  · rw [he] at h
    have := digitChar_toNat hd
    rw [← h] at this
    have h46 : ('.').toNat = 46 := rfl
    rw [h46] at this
    omega

/-! ### fileStem -/

theorem takeWhile_append_cons {p : Char → Bool} :
    ∀ (l : List Char) (x : Char) (r : List Char), (∀ c ∈ l, p c = true) →
      p x = false → (l ++ x :: r).takeWhile p = l := by
  intro l
  induction l with
  | nil =>
    intro x r _ hx
    simp [List.takeWhile_cons, hx]
  | cons c t ih =>
    intro x r hl hx
    have hc : p c = true := hl c (List.mem_cons_self c t)
    simp only [List.cons_append, List.takeWhile_cons, hc, if_true]
    rw [ih x r (fun d hd => hl d (List.mem_cons_of_mem c hd)) hx]

theorem fileStem_append {a b : List Char} (hslash : ∀ c ∈ b, c ≠ '/')
    (hdot : ∀ c ∈ b, c ≠ '.') (hne : b ≠ []) :
    fileStem (a ++ '/' :: b) = some b := by
  have hrev : (a ++ '/' :: b).reverse = b.reverse ++ '/' :: a.reverse := by
    simp
  have htake : ((a ++ '/' :: b).reverse.takeWhile (fun c => c ≠ '/')) = b.reverse := by
    rw [hrev]
    exact takeWhile_append_cons _ _ _
      (fun c hc => by simp [hslash c (List.mem_reverse.1 hc)])
      (by simp)
  rw [fileStem, fileNameOf, htake, List.reverse_reverse, if_neg hne]
  have hdrop : b.reverse.dropWhile (fun c => c ≠ '.') = [] :=
    List.dropWhile_eq_nil_iff.2 (fun c hc => by simp [hdot c (List.mem_reverse.1 hc)])
  simp only [Option.map_some']
  congr 1
  rw [stripExt, hdrop]

/-! ### Sorted listings -/

theorem sortedAscB_head_lt : ∀ {t : List (List Char)} {h x : List Char},
    sortedAscB (h :: t) = true → x ∈ t → lexLt h x = true := by
  intro t
  induction t with
  | nil => intro h x _ hx; simp at hx
  | cons y t' ih =>
    intro h x hs hx
    rw [sortedAscB, Bool.and_eq_true] at hs
    rcases List.mem_cons.1 hx with rfl | hx'
    · exact hs.1
    · exact lexLt_trans hs.1 (ih hs.2 hx')

theorem sorted_head_eq_min {bucket : List (List Char)} {m : List Char}
    (hsort : sortedAscB bucket = true) (hm : m ∈ bucket)
    (hmin : ∀ x ∈ bucket, x = m ∨ lexLt m x = true) :
    ∃ t, bucket = m :: t := by
  cases bucket with
  | nil => simp at hm
  | cons h t =>
    rcases hmin h (List.mem_cons_self h t) with rfl | hlt
    · exact ⟨t, rfl⟩
    · rcases List.mem_cons.1 hm with rfl | hmt
      · rw [lexLt_irrefl] at hlt
        exact absurd hlt (by simp)
      · have h1 : lexLt h m = true := sortedAscB_head_lt hsort hmt
        have h2 := lexLt_asymm h1
        rw [h2] at hlt
        exact absurd hlt (by simp)

/-! ### Ordering of the stored keys -/

/-- The lookup key for `frame_no = u64::MAX` (complement 0, a 19-character
all-zero field) sorts strictly before every stored index key whose start
complement has 20 digits. -/
theorem lookup_max_lt_index_key (folder : List Char) {k : SegmentKey}
    (hs : k.start_frame_no ≤ CMAX) :
    lexLt (s3_segment_index_lookup_key folder U64MAX)
      (s3_segment_index_key folder k) = true := by
  have hc20 : U64MAX - k.start_frame_no < 10 ^ 20 := by
    have := U64MAX_lt_pow20
    omega
  have hcge : 10 ^ 19 ≤ U64MAX - k.start_frame_no := CMAX_compl_ge hs
  rw [s3_segment_index_lookup_key, s3_segment_index_key]
  have h0 : U64MAX - U64MAX = 0 := by omega
  have hf : fmt019 0 = digitsFix 19 0 := by rw [fmt019, if_pos]; norm_num
  rw [h0, hf, display_decomp hs]
  rw [lexLt_append_same]
  have h19 : digitsFix 19 0 = digitChar 0 :: digitsFix 18 0 := rfl
  have h20 : digitsFix 20 (U64MAX - k.start_frame_no) =
      digitChar ((U64MAX - k.start_frame_no) / 10 ^ 19) ::
        digitsFix 19 ((U64MAX - k.start_frame_no) % 10 ^ 19) := rfl
  rw [h19, h20, List.cons_append]
  apply lexLt_cons_of_lt
  have hd10 : (U64MAX - k.start_frame_no) / 10 ^ 19 < 10 := div_pow_lt_ten hc20
  have hd1 : 1 ≤ (U64MAX - k.start_frame_no) / 10 ^ 19 :=
    (Nat.one_le_div_iff (Nat.pos_pow_of_pos 19 (by omega))).2 hcge
  have h48 : (digitChar 0).toNat = 48 := rfl
  rw [h48, digitChar_toNat hd10]
  omega

/-- Among stored index keys with 20-digit start complements, the key of the
strictly larger start frame number sorts strictly first. -/
theorem index_key_lt_index_key (folder : List Char) {k1 k2 : SegmentKey}
    (h : k2.start_frame_no < k1.start_frame_no) (h1 : k1.start_frame_no ≤ CMAX) :
    lexLt (s3_segment_index_key folder k1) (s3_segment_index_key folder k2) = true := by
  rw [s3_segment_index_key, s3_segment_index_key, lexLt_append_same]
  exact display_lex h h1

/-- Every index key of a folder sorts strictly before every data key of the
same folder (`indexes/` before `segments/`). -/
theorem index_key_lt_data_key (folder : List Char) (k1 k2 : SegmentKey) :
    lexLt (s3_segment_index_key folder k1) (s3_segment_data_key folder k2) = true := by
  rw [s3_segment_index_key, s3_segment_data_key]
  rw [List.append_assoc folder, List.append_assoc folder, lexLt_append_same]
  have e1 : "/indexes/".data ++ SegmentKey.display k1 =
      '/' :: ("indexes/".data ++ SegmentKey.display k1) := rfl
  have e2 : "/segments/".data ++ SegmentKey.display k2 =
      '/' :: ("segments/".data ++ SegmentKey.display k2) := rfl
  rw [e1, e2, lexLt_cons_iff]
  refine Or.inr ⟨rfl, ?_⟩
  have e3 : "indexes/".data ++ SegmentKey.display k1 =
      'i' :: ("ndexes/".data ++ SegmentKey.display k1) := rfl
  have e4 : "segments/".data ++ SegmentKey.display k2 =
      's' :: ("egments/".data ++ SegmentKey.display k2) := rfl
  rw [e3, e4]
  exact lexLt_cons_of_lt _ _ (by decide)

/-- The file stem of a stored index key is the encoded segment key. -/
theorem fileStem_index_key (folder : List Char) {k : SegmentKey}
    (hsM : k.start_frame_no ≤ U64MAX) (heM : k.end_frame_no ≤ U64MAX) :
    fileStem (s3_segment_index_key folder k) = some (SegmentKey.display k) := by
  have hsplit : s3_segment_index_key folder k =
      (folder ++ "/indexes".data) ++ '/' :: SegmentKey.display k := by
    rw [s3_segment_index_key]
    have : ("/indexes/").data = "/indexes".data ++ ['/'] := rfl
    rw [this]
    simp [List.append_assoc]
  rw [hsplit]
  exact fileStem_append (display_no_slash hsM heM) (display_no_dot hsM heM)
    (display_ne_nil k)

/-- In a bucket holding exactly the index and data objects of a list of
segments — every start complement with 20 digits, the maximal start frame
number attained by the single segment `kmax` — `find_segment` at
`u64::MAX` finds `kmax`: its index key is the first bucket key after the
all-zero lookup anchor, and its file stem decodes back to `kmax`. -/
theorem find_segment_max {folder : List Char} {segs : List SegmentKey}
    {bucket : List (List Char)} {kmax : SegmentKey}
    (hsort : sortedAscB bucket = true)
    (hperm : bucket.Perm (segs.map (s3_segment_index_key folder) ++
      segs.map (s3_segment_data_key folder)))
    (hbound : ∀ k ∈ segs, k.start_frame_no ≤ CMAX)
    (hebound : ∀ k ∈ segs, k.end_frame_no ≤ U64MAX)
    (hkmem : kmax ∈ segs)
    (hmaxs : ∀ k ∈ segs, k.start_frame_no ≤ kmax.start_frame_no)
    (huniq : ∀ k ∈ segs, k.start_frame_no = kmax.start_frame_no → k = kmax) :
    find_segment bucket folder U64MAX = some (some kmax) := by
  have hmmem : s3_segment_index_key folder kmax ∈ bucket := by
    rw [hperm.mem_iff]
    exact List.mem_append.2 (Or.inl (List.mem_map_of_mem _ hkmem))
  have hmin : ∀ x ∈ bucket, x = s3_segment_index_key folder kmax ∨
      lexLt (s3_segment_index_key folder kmax) x = true := by
    intro x hx
    rw [hperm.mem_iff] at hx
    rcases List.mem_append.1 hx with hx | hx
    · obtain ⟨k, hk, rfl⟩ := List.mem_map.1 hx
      by_cases hkk : k = kmax
      · subst hkk
        exact Or.inl rfl
      · refine Or.inr (index_key_lt_index_key folder ?_ (hbound kmax hkmem))
        have h1 := hmaxs k hk
        have h2 : k.start_frame_no ≠ kmax.start_frame_no :=
          fun he => hkk (huniq k hk he)
        omega
    · obtain ⟨k, hk, rfl⟩ := List.mem_map.1 hx
      exact Or.inr (index_key_lt_data_key folder kmax k)
  obtain ⟨t, hbt⟩ := sorted_head_eq_min hsort hmmem hmin
  have hlook : lexLt (s3_segment_index_lookup_key folder U64MAX)
      (s3_segment_index_key folder kmax) = true :=
    lookup_max_lt_index_key folder (hbound kmax hkmem)
  simp only [find_segment, hbt, List.find?_cons_of_pos _ hlook]
  rw [fileStem_index_key folder (le_U64MAX_of_le_CMAX (hbound kmax hkmem))
    (hebound kmax hkmem)]
  simp only [fromStr_display (hbound kmax hkmem) (hebound kmax hkmem)]

/-! ### Streaming upload body -/

theorem chunksFrom_join : ∀ (n : Nat) (rest : List Nat), rest.length ≤ n →
    (chunksFrom rest).flatten = rest := by
  intro n
  induction n with
  | zero =>
    intro rest h
    have hr : rest = [] := by cases rest <;> simp_all
    subst hr
    rw [chunksFrom]
    simp
  | succ n ih =>
    intro rest h
    rw [chunksFrom]
    by_cases hr : rest = []
    · simp [hr]
    · rw [dif_neg hr]
      simp only [List.flatten_cons]
      rw [ih _ ?hlen]
      · exact List.take_append_drop 4096 rest
      case hlen =>
        have hp : 0 < rest.length := List.length_pos.2 hr
        simp only [List.length_drop]
        omega

theorem chunksFrom_length : ∀ (n : Nat) (rest : List Nat), rest.length ≤ n →
    (chunksFrom rest).length = (rest.length + 4095) / 4096 := by
  intro n
  induction n with
  | zero =>
    intro rest h
    have hr : rest = [] := by cases rest <;> simp_all
    subst hr
    rw [chunksFrom]
    simp
  | succ n ih =>
    intro rest h
    rw [chunksFrom]
    by_cases hr : rest = []
    · subst hr
      simp
    · rw [dif_neg hr]
      have hp : 0 < rest.length := List.length_pos.2 hr
      simp only [List.length_cons]
      rw [ih _ (by simp only [List.length_drop]; omega)]
      simp only [List.length_drop]
      omega

theorem drive_eq_chunksFrom (source : List Nat) :
    ∀ (fuel off : Nat), (source.length - off + 4095) / 4096 + 1 ≤ fuel →
      drive source fuel ⟨off, 4096, .init⟩ = chunksFrom (source.drop off) := by
  intro fuel
  induction fuel with
  | zero =>
    intro off h
    omega
  | succ fuel ih =>
    intro off h
    by_cases hb : (source.drop off).take 4096 = []
    · have hnil : source.drop off = [] := by
        rcases List.take_eq_nil_iff.1 hb with h1 | h1
        · omega
        · exact h1
      rw [drive]
      simp only [poll_frame, read_at, hnil]
      rw [chunksFrom]
      simp
    · have hoff : off < source.length := by
        by_contra hcon
        have : source.drop off = [] := List.drop_eq_nil_of_le (by omega)
        rw [this] at hb
        simp at hb
      have hdne : source.drop off ≠ [] := by
        intro hcon
        rw [hcon] at hb
        simp at hb
      have hblen : ((source.drop off).take 4096).length =
          min 4096 (source.length - off) := by
        simp [List.length_take, List.length_drop]
      have hpoll : poll_frame source ⟨off, 4096, StreamState.init⟩ =
          (⟨off + (List.take 4096 (List.drop off source)).length, 4096,
            StreamState.init⟩, some (List.take 4096 (List.drop off source))) := by
        simp only [poll_frame, read_at]
        rw [if_neg (by simp [List.isEmpty_iff, hb])]
      rw [drive, hpoll]
      rw [chunksFrom, dif_neg hdne]
      show List.take 4096 (List.drop off source) ::
          drive source fuel ⟨off + (List.take 4096 (List.drop off source)).length,
            4096, StreamState.init⟩ =
        List.take 4096 (List.drop off source) ::
          chunksFrom (List.drop 4096 (List.drop off source))
      congr 1
      rw [ih (off + ((source.drop off).take 4096).length) ?bound]
      case bound =>
        rw [hblen]
        rcases le_or_lt 4096 (source.length - off) with hge | hlt
        · have : min 4096 (source.length - off) = 4096 := by omega
          rw [this]
          omega
        · have : min 4096 (source.length - off) = source.length - off := by omega
          rw [this]
          omega
      congr 1
      rw [List.drop_drop]
      rcases le_or_lt 4096 (source.length - off) with hge | hlt
      · have h1 : min 4096 (source.length - off) = 4096 := by omega
        rw [hblen, h1]
      · have h1 : min 4096 (source.length - off) = source.length - off := by omega
        have e1 : source.drop (off + ((source.drop off).take 4096).length) = [] := by
          apply List.drop_eq_nil_of_le
          rw [hblen, h1]
          omega
        have e2 : source.drop (off + 4096) = [] :=
          List.drop_eq_nil_of_le (by omega)
        rw [e1, e2]

theorem bodyFrames_eq_chunksFrom (source : List Nat) :
    bodyFrames source = chunksFrom source := by
  rw [bodyFrames, FileStreamBody.new_inner]
  rw [drive_eq_chunksFrom source (source.length + 1) 0 (by omega)]
  rw [List.drop_zero]

theorem drive_stable {source : List Nat} {fuel : Nat}
    (h : source.length + 1 ≤ fuel) :
    drive source fuel FileStreamBody.new_inner = bodyFrames source := by
  rw [FileStreamBody.new_inner]
  rw [drive_eq_chunksFrom source fuel 0 (by omega)]
  rw [List.drop_zero, bodyFrames_eq_chunksFrom]

/-! ### store unfolding -/

theorem store_eq (dc c : S3Config) (m : SegmentMeta)
    (f : PutRequest → CallResult Unit) :
    store dc c m f =
      match f (storeDataRequest dc c m) with
      | .fail => (.panics, [storeDataRequest dc c m])
      | .ok _ =>
        match f (storeIndexRequest dc c m) with
        | .fail => (.panics, [storeDataRequest dc c m, storeIndexRequest dc c m])
        | .ok _ => (.ok (), [storeDataRequest dc c m, storeIndexRequest dc c m]) :=
  rfl

/-! ### Claim theorems -/

/-- C1 counterexample: the claim fails for `s1 = 0 < s2 = 9·10^18`: the
complement of `s2` has only 19 digits, so `encode(SegmentKey{s2,_})` sorts
lexicographically *after* `encode(SegmentKey{s1,_})`, not before. -/
theorem C1_counterexample :
    (0 : Nat) < 9000000000000000000
    ∧ lexLt (SegmentKey.display ⟨9000000000000000000, 9000000000000000064⟩)
        (SegmentKey.display ⟨0, 64⟩) = false
    ∧ lexLt (SegmentKey.display ⟨0, 64⟩)
        (SegmentKey.display ⟨9000000000000000000, 9000000000000000064⟩) = true := by
  decide

/-- C1 (amended): for every pair of start frame numbers `s1 < s2` with
`s2 ≤ u64::MAX − 10^19` (so that both complements keep 20 decimal digits),
each paired with any end frame number, the encoding of `SegmentKey{s1,_}`
sorts lexicographically greater than the encoding of `SegmentKey{s2,_}`:
ascending lexicographic order of encoded keys equals descending numeric
order of `start_frame_no` on that range. -/
theorem C1_order_reversal (s1 s2 e1 e2 : Nat) (h12 : s1 < s2) (hs2 : s2 ≤ CMAX) :
    lexLt (SegmentKey.display ⟨s2, e2⟩) (SegmentKey.display ⟨s1, e1⟩) = true :=
  display_lex h12 hs2

/-- C1 witness: the amended order reversal at `s1 = 0 < s2 = 1`. -/
theorem C1_order_reversal_witness :
    (0 : Nat) < 1 ∧ (1 : Nat) ≤ CMAX
    ∧ lexLt (SegmentKey.display ⟨1, 65⟩) (SegmentKey.display ⟨0, 64⟩) = true :=
  ⟨by norm_num, by decide, C1_order_reversal 0 1 64 65 (by norm_num) (by decide)⟩

/-- C2 counterexample: the claim fails at `s = 10^19 < e = 10^19 + 1`: the
complement fields have only 19 digits each, the encoding is 39 characters,
and `split_at(20)` hands the parser a 20-character slice that ends in the
separator, so decoding returns the format error instead of the key. -/
theorem C2_counterexample :
    (10000000000000000000 : Nat) < 10000000000000000001
    ∧ SegmentKey.fromStr
        (SegmentKey.display ⟨10000000000000000000, 10000000000000000001⟩) =
        .fmtErr := by
  decide

/-- C2 (amended): for every pair of u64 frame numbers `(s, e)` with `s < e`
and `s ≤ u64::MAX − 10^19` (20-digit start complement), decoding the
encoded string of `SegmentKey{s, e}` succeeds and returns exactly
`SegmentKey{s, e}`. -/
theorem C2_round_trip (s e : Nat) (hse : s < e) (hs : s ≤ CMAX)
    (he : e ≤ U64MAX) :
    SegmentKey.fromStr (SegmentKey.display ⟨s, e⟩) = .ok ⟨s, e⟩ :=
  fromStr_display hs he

/-- C2 witness: the amended round trip at `(s, e) = (0, 64)`. -/
theorem C2_round_trip_witness :
    (0 : Nat) < 64 ∧ (0 : Nat) ≤ CMAX ∧ (64 : Nat) ≤ U64MAX
    ∧ SegmentKey.fromStr (SegmentKey.display ⟨0, 64⟩) = .ok ⟨0, 64⟩ :=
  ⟨by norm_num, by decide, by decide,
    C2_round_trip 0 64 (by norm_num) (by decide) (by decide)⟩

/-- C3 counterexample: the encoding of `SegmentKey{0, 64}` has 41
characters, not 39: `{:019}` is a *minimum* width and both complements
have 20 digits. -/
theorem C3_counterexample :
    (SegmentKey.display ⟨0, 64⟩).length = 41
    ∧ (SegmentKey.display ⟨0, 64⟩).length ≠ 39 := by
  decide

/-- C3 (amended): for every `SegmentKey` whose fields are at most
`u64::MAX − 10^19` (in particular for every key the backend ever writes in
practice), the encoded string has the fixed length 41: a 20-digit
zero-padded field, one separator character, and a second 20-digit
zero-padded field.  (For fields above that bound a complement field
shrinks to 19 digits and the length drops accordingly.) -/
theorem C3_fixed_length (s e : Nat) (hs : s ≤ CMAX) (he : e ≤ CMAX) :
    SegmentKey.display ⟨s, e⟩ =
      digitsFix 20 (U64MAX - s) ++ '-' :: digitsFix 20 (U64MAX - e)
    ∧ (SegmentKey.display ⟨s, e⟩).length = 41 := by
  have h1 := display_decomp (e := e) hs
  have h2 : fmt019 (U64MAX - e) = digitsFix 20 (U64MAX - e) :=
    fmt019_eq_digitsFix_20 (CMAX_compl_ge he)
  constructor
  · rw [h1, h2]
  · rw [h1, h2]
    simp [digitsFix_length]

/-- C3 witness: the amended length invariant at `SegmentKey{0, 0}`. -/
theorem C3_fixed_length_witness :
    (0 : Nat) ≤ CMAX ∧ (SegmentKey.display ⟨0, 0⟩).length = 41 :=
  ⟨by decide, (C3_fixed_length 0 0 (by decide) (by decide)).2⟩

/-- C4: with the bucket holding exactly the data and index objects of the
two stored segments `[0,64)` and `[64,128)` of one namespace (in ascending
key order, as S3 lists them), `find_segment` returns the key of `[0,64)`
for frame numbers 1 and 63, and the key of `[64,128)` for 64 and 65. -/
theorem C4_lookup_correct :
    sortedAscB bucketC4 = true
    ∧ find_segment bucketC4 folderC 1 = some (some ⟨0, 64⟩)
    ∧ find_segment bucketC4 folderC 63 = some (some ⟨0, 64⟩)
    ∧ find_segment bucketC4 folderC 64 = some (some ⟨64, 128⟩)
    ∧ find_segment bucketC4 folderC 65 = some (some ⟨64, 128⟩) := by
  decide

/-- C5 counterexample: with the two stored segments `[0,64)` and
`[9·10^18, 9·10^18+64)` (the latter having the highest `start_frame_no`
but a 19-digit complement), `meta` returns `max_frame_no = 64` — the end
of the *lower* segment — instead of `9000000000000000064`. -/
theorem C5_counterexample :
    sortedAscB bucketC5 = true
    ∧ metaOp (.ok bucketC5) folderC = .ok 64
    ∧ (64 : Nat) ≠ 9000000000000000064 := by
  decide

/-- C5 (amended): `meta` issues `find_segment` with `frame_no = u64::MAX`.
For every namespace state whose bucket holds exactly the index and data
objects of the namespace's segments, with every `start_frame_no` at most
`u64::MAX − 10^19` (20-digit complements) and a unique segment of maximal
`start_frame_no`, the returned `max_frame_no` equals that segment's
`end_frame_no`; with no segments it equals 0. -/
theorem C5_meta (folder : List Char) (segs : List SegmentKey)
    (bucket : List (List Char))
    (hsort : sortedAscB bucket = true)
    (hperm : bucket.Perm (segs.map (s3_segment_index_key folder) ++
      segs.map (s3_segment_data_key folder)))
    (hbound : ∀ k ∈ segs, k.start_frame_no ≤ CMAX)
    (hebound : ∀ k ∈ segs, k.end_frame_no ≤ U64MAX) :
    (segs = [] → metaOp (.ok bucket) folder = .ok 0)
    ∧ ∀ kmax ∈ segs, (∀ k ∈ segs, k.start_frame_no ≤ kmax.start_frame_no) →
        (∀ k ∈ segs, k.start_frame_no = kmax.start_frame_no → k = kmax) →
        metaOp (.ok bucket) folder = .ok kmax.end_frame_no := by
  constructor
  · intro hnil
    subst hnil
    have hb : bucket = [] := List.Perm.eq_nil (by simpa using hperm)
    subst hb
    rfl
  · intro kmax hkmem hmaxs huniq
    have hfind := find_segment_max hsort hperm hbound hebound hkmem hmaxs huniq
    simp only [metaOp, hfind]

/-- C5 witness: the amended meta aggregation on the two segments ending at
64 and 128 (stored as `bucketC4`) gives `max_frame_no = 128`, and the
empty namespace gives 0. -/
theorem C5_meta_witness :
    metaOp (.ok bucketC4) folderC = .ok 128
    ∧ metaOp (.ok []) folderC = .ok 0 := by
  have h := C5_meta folderC [⟨64, 128⟩, ⟨0, 64⟩] bucketC4 (by decide)
    (List.Perm.refl _) (by decide) (by decide)
  have h0 := C5_meta folderC [] [] (by decide) (List.Perm.refl _)
    (by simp) (by simp)
  exact ⟨h.2 ⟨64, 128⟩ (by decide) (by decide) (by decide), h0.1 rfl⟩

/-- C6: driving the streaming upload adapter to completion yields exactly
`ceil(L/4096)` data frames whose concatenation equals the source bytes,
followed by end of stream (any fuel beyond `L + 1` polls produces the same
frames, i.e. the machine has terminated); for `L = 0` it yields zero data
frames and terminates immediately. -/
theorem C6_streaming (source : List Nat) :
    (bodyFrames source).flatten = source
    ∧ (bodyFrames source).length = (source.length + 4095) / 4096
    ∧ (source.length = 0 → bodyFrames source = [])
    ∧ ∀ fuel, source.length + 1 ≤ fuel →
        drive source fuel FileStreamBody.new_inner = bodyFrames source := by
  refine ⟨?_, ?_, ?_, ?_⟩
  · rw [bodyFrames_eq_chunksFrom]
    exact chunksFrom_join source.length source le_rfl
  · rw [bodyFrames_eq_chunksFrom]
    exact chunksFrom_length source.length source le_rfl
  · intro h0
    have hs : source = [] := List.length_eq_zero.1 h0
    subst hs
    rw [bodyFrames_eq_chunksFrom, chunksFrom]
    simp
  · intro fuel hf
    exact drive_stable hf

/-- C6 witness: the streaming properties at a 3-byte source (one frame)
and at the empty source (zero frames). -/
theorem C6_streaming_witness :
    (bodyFrames [1, 2, 3]).flatten = [1, 2, 3]
    ∧ (bodyFrames [1, 2, 3]).length = 1
    ∧ drive [1, 2, 3] 9 FileStreamBody.new_inner = bodyFrames [1, 2, 3]
    ∧ bodyFrames [] = [] := by
  have h := C6_streaming [1, 2, 3]
  have h0 := C6_streaming []
  refine ⟨h.1, ?_, h.2.2.2 9 (by norm_num), h0.2.2.1 rfl⟩
  rw [h.2.1]
  decide

/-- C7 counterexample: decode accepts the 41-character encoding of
`SegmentKey{0, 64}` — an input that is *not* 19 digits, a separator and 19
digits — returning a `SegmentKey` instead of an error; and on the empty
string it panics (out-of-bounds `split_at`) instead of returning an
error. -/
theorem C7_counterexample :
    SegmentKey.fromStr (SegmentKey.display ⟨0, 64⟩) = .ok ⟨0, 64⟩
    ∧ (SegmentKey.display ⟨0, 64⟩).length ≠ 39
    ∧ SegmentKey.fromStr [] = .panics := by
  decide

/-- C7 (amended): decode panics on every input shorter than 20 characters;
on every input of at least 21 characters it never panics, and it returns a
`SegmentKey` exactly when the first 20 characters parse as a u64 and the
characters after position 21 parse as a u64 (the separator character is
never validated); all other inputs of at least 21 characters give the
format error. -/
theorem C7_decode_errors (l : List Char) :
    (l.length < 20 → SegmentKey.fromStr l = .panics)
    ∧ (21 ≤ l.length →
        SegmentKey.fromStr l ≠ .panics
        ∧ ((∃ k, SegmentKey.fromStr l = .ok k) ↔
            (parseU64 (l.take 20)).isSome ∧ (parseU64 (l.drop 21)).isSome)) := by
  constructor
  · intro h
    rw [SegmentKey.fromStr, if_pos h]
  · intro h
    rw [SegmentKey.fromStr, if_neg (by omega)]
    have h21 : (l.drop 20).drop 1 = l.drop 21 := by
      rw [List.drop_drop]
    split
    · rename_i heq
      refine ⟨by simp, ?_⟩
      simp [heq]
    · rename_i v1 heq
      rw [if_neg (by simp only [List.length_drop]; omega), h21]
      split
      · rename_i heq2
        refine ⟨by simp, ?_⟩
        simp [heq, heq2]
      · rename_i v2 heq2
        refine ⟨by simp, ?_⟩
        simp [heq, heq2]

/-- C7 witness: the amended behaviour at the empty input (panic) and at
the 41-character encoding of `SegmentKey{0, 64}` (accepted). -/
theorem C7_decode_errors_witness :
    SegmentKey.fromStr [] = .panics
    ∧ (∃ k, SegmentKey.fromStr (SegmentKey.display ⟨0, 64⟩) = .ok k) := by
  refine ⟨(C7_decode_errors []).1 (by decide), ?_⟩
  exact (((C7_decode_errors (SegmentKey.display ⟨0, 64⟩)).2
    (by decide)).2).mpr ⟨by decide, by decide⟩

/-- C8 counterexample: a transport failure of the first `put_object` during
`store` makes the operation panic (the send is `.unwrap()`ed); no typed
error of the taxonomy is returned to the caller. -/
theorem C8_counterexample :
    (store ⟨("bkt").data, ("cid").data⟩ ⟨("bkt").data, ("cid").data⟩
      ⟨("ns1").data, 0, 64⟩ (fun _ => .fail)).1 = .panics :=
  rfl

/-- C8 (amended): every blob-store transport failure (put during `store`,
list during `find_segment` for `fetch_segment`/`meta`, get during
`fetch_segment`) causes a panic through `.unwrap()` rather than a typed
error; `store` in particular can never return a typed error.  The claim's
initialization exception does hold: bucket-already-exists (and
already-owned-by-you) is silently recovered, while any other
bucket-creation failure is returned as the typed unhandled error. -/
theorem C8_blob_failures (dc c : S3Config) (m : SegmentMeta)
    (f : PutRequest → CallResult Unit) (fk : List Char) (fno : Nat)
    (bucket : List (List Char)) (g1 g2 : CallResult Unit) :
    ((∃ r ∈ (store dc c m f).2, f r = .fail) → (store dc c m f).1 = .panics)
    ∧ (∀ e, (store dc c m f).1 ≠ .err e)
    ∧ fetch_segment .fail fk fno g1 g2 = .panics
    ∧ (∀ sk, find_segment bucket fk fno = some (some sk) →
        SegmentKey.includes sk fno = true → (g1 = .fail ∨ g2 = .fail) →
        fetch_segment (.ok bucket) fk fno g1 g2 = .panics)
    ∧ metaOp .fail fk = .panics
    ∧ init_bucket .bucketAlreadyExists = .ok ()
    ∧ init_bucket .bucketAlreadyOwnedByYou = .ok ()
    ∧ init_bucket .otherServiceError =
        .err (.unhandled ("failed to create bucket").data) := by
  refine ⟨?_, ?_, rfl, ?_, rfl, rfl, rfl, rfl⟩
  · intro ⟨r, hr, hfail⟩
    rw [store_eq] at hr ⊢
    cases h1 : f (storeDataRequest dc c m) with
    | fail => rfl
    | ok _ =>
      cases h2 : f (storeIndexRequest dc c m) with
      | fail => rfl
      | ok _ =>
        rw [h1, h2] at hr
        simp at hr
        rcases hr with rfl | rfl
        · rw [h1] at hfail
          exact absurd hfail (by simp)
        · rw [h2] at hfail
          exact absurd hfail (by simp)
  · intro e
    rw [store_eq]
    cases h1 : f (storeDataRequest dc c m) with
    | fail => simp
    | ok _ =>
      cases h2 : f (storeIndexRequest dc c m) with
      | fail => simp
      | ok _ => simp
  · intro sk hfind hinc hfail
    simp only [fetch_segment, hfind, hinc, if_true]
    rcases hfail with rfl | rfl
    · cases g2 <;> rfl
    · cases g1 <;> rfl

/-- C8 witness: the amended behaviour at a concrete backend whose puts all
fail (store panics) and whose listing transport fails (fetch panics), and
the initialization carve-outs. -/
theorem C8_blob_failures_witness :
    (store ⟨("b").data, ("c").data⟩ ⟨("b").data, ("c").data⟩
      ⟨("n").data, 0, 64⟩ (fun _ => .fail)).1 = .panics
    ∧ fetch_segment .fail ("fk").data 5 (.ok ()) (.ok ()) = .panics
    ∧ init_bucket .bucketAlreadyExists = .ok () := by
  have h := C8_blob_failures ⟨("b").data, ("c").data⟩ ⟨("b").data, ("c").data⟩
    ⟨("n").data, 0, 64⟩ (fun _ => .fail) (("fk").data) 5 [] (.ok ()) (.ok ())
  refine ⟨h.1 ⟨storeDataRequest ⟨("b").data, ("c").data⟩ ⟨("b").data, ("c").data⟩
    ⟨("n").data, 0, 64⟩, ?_, rfl⟩, h.2.2.1, h.2.2.2.2.2.1⟩
  rw [store_eq]
  simp

/-- C9: both `put_object` calls of `store` target the bucket of the
backend's immutable default configuration, not the bucket of the config
argument passed to the call, while the object keys are derived from the
passed config's `cluster_id`; by contrast, the `get_object` of the fetch
path and the `list_objects_v2` of `find_segment` address the bucket of the
passed config. -/
theorem C9_bucket_mismatch (dc c : S3Config) (m : SegmentMeta)
    (f : PutRequest → CallResult Unit) (fk key : List Char) (fno : Nat) :
    (∀ r ∈ (store dc c m f).2, r.bucket = dc.bucket)
    ∧ (store dc c m f).2.head? = some ⟨dc.bucket,
        s3_segment_data_key (folderKeyStr c.cluster_id m.ns)
          ⟨m.start_frame_no, m.end_frame_no⟩⟩
    ∧ (find_segment_request c fk fno).bucket = c.bucket
    ∧ (s3_get c key).bucket = c.bucket := by
  refine ⟨?_, ?_, rfl, rfl⟩
  · intro r hr
    rw [store_eq] at hr
    cases h1 : f (storeDataRequest dc c m) with
    | fail =>
      rw [h1] at hr
      simp at hr
      subst hr
      rfl
    | ok _ =>
      cases h2 : f (storeIndexRequest dc c m) with
      | fail =>
        rw [h1, h2] at hr
        simp at hr
        rcases hr with rfl | rfl <;> rfl
      | ok _ =>
        rw [h1, h2] at hr
        simp at hr
        rcases hr with rfl | rfl <;> rfl
  · rw [store_eq]
    cases h1 : f (storeDataRequest dc c m) with
    | fail => rfl
    | ok _ =>
      cases h2 : f (storeIndexRequest dc c m) with
      | fail => rfl
      | ok _ => rfl

/-- C9 witness: at a default config with bucket `db` and a passed config
with bucket `ob` and cluster id `c2`, the first store request targets `db`
with the key derived from `c2`, and the listing request targets `ob`. -/
theorem C9_bucket_mismatch_witness :
    (store ⟨("db").data, ("c1").data⟩ ⟨("ob").data, ("c2").data⟩
        ⟨("n").data, 0, 64⟩ (fun _ => .ok ())).2.head? =
      some ⟨("db").data,
        s3_segment_data_key (folderKeyStr ("c2").data ("n").data) ⟨0, 64⟩⟩
    ∧ (find_segment_request ⟨("ob").data, ("c2").data⟩ ("fk").data 7).bucket =
        ("ob").data := by
  have h := C9_bucket_mismatch ⟨("db").data, ("c1").data⟩
    ⟨("ob").data, ("c2").data⟩ ⟨("n").data, 0, 64⟩ (fun _ => .ok ())
    (("fk").data) (("key").data) 7
  exact ⟨h.2.1, h.2.2.1⟩

/-- C10: with a bucket whose only object is the *data* object of segment
`[0,64)` — so the namespace has no index key at all, in particular none
sorting after the lookup anchor for frame 5 — `find_segment` still returns
`Some` segment key, decoded from that unrelated object's file name,
instead of returning none: the single listing call constrains results only
by start-after, with no restriction to the `indexes/` subtree. -/
theorem C10_unrelated_key :
    (bucketC10.all fun k => !((folderC ++ "/indexes/".data).isPrefixOf k)) = true
    ∧ find_segment bucketC10 folderC 5 = some (some ⟨0, 64⟩) := by
  decide

end S3
